import Mathlib

/-!
Verification of the sqscli queue-drain tool.

The Go source is shallowly embedded: SQS messages become a `Message`
structure whose attribute map is a partial function (a missing key is a
`nil` pointer in Go, and dereferencing it is modelled as an
`Except.error` that aborts the surrounding computation, exactly as a
runtime panic aborts the Go process).  The remote SQS calls are
modelled by their request payloads plus externally supplied outcomes,
so every function of the tool becomes a pure Lean function of its
inputs and of those outcomes.
-/

set_option autoImplicit false

namespace SqsCli

/-- A received SQS message (`sqs.Message`).  `MessageId`, `Body` and
`ReceiptHandle` are always populated on received messages and are kept
as plain strings; the `Attributes` map sends an attribute name to its
value, `none` meaning the key is absent (a `nil` `*string` in Go). -/
structure Message where
  messageId : String
  body : String
  receiptHandle : String
  attributes : String → Option String

/-- Dereference of a Go `*string` map entry (`*m.Attributes[key]`): a
missing key yields a nil pointer and the dereference panics; the panic
is modelled as an `Except.error` that propagates outward and aborts the
whole computation. -/
def deref (key : String) : Option String → Except String String
  | none => Except.error ("runtime error: invalid memory address or nil pointer dereference: " ++ key)
  | some v => Except.ok v

/-- An `sqs.MessageAttributeValue` as built by the tool (`DataType`
is always the string `"String"` in the source). -/
structure MessageAttributeValue where
  dataType : String
  stringValue : String
deriving DecidableEq

/-- Assignment into a Go `map[string]*sqs.MessageAttributeValue`,
modelled on an association list: overwrite the key if present,
otherwise append it. -/
def setMsgAttr (l : List (String × MessageAttributeValue)) (key : String)
    (v : MessageAttributeValue) : List (String × MessageAttributeValue) :=
  if l.any (fun p => p.1 = key) then l.map (fun p => if p.1 = key then (key, v) else p)
  else l ++ [(key, v)]

/-- An `sqs.SendMessageBatchRequestEntry` as populated by
`sendMessageBatch` and `getBatchRequestEntryAttributes`. -/
structure SendMessageBatchRequestEntry where
  id : String
  messageBody : String
  messageAttributes : List (String × MessageAttributeValue)
  messageGroupId : Option String
  messageDeduplicationId : Option String
  delaySeconds : Option Int
deriving DecidableEq

/-- Lowercase hexadecimal digit, as printed by Go's `%x` verb. -/
def hexDigit (n : Nat) : Char :=
  if n < 10 then Char.ofNat (48 + n) else Char.ofNat (87 + n)

/-- Two-digit lowercase hex rendering of one byte (`%x` on a byte). -/
def hexByte (b : Nat) : List Char := [hexDigit (b / 16), hexDigit (b % 16)]

/-- The two in-place masks of `newUUID` on its 16-byte buffer:
`uuid[8] = uuid[8]&^0xc0 | 0x80` (variant bits) and
`uuid[6] = uuid[6]&^0xf0 | 0x40` (version nibble).  For bytes below
256 the bit operations equal the arithmetic used here. -/
def uuidMask : List Nat → List Nat
  | [b0, b1, b2, b3, b4, b5, b6, b7, b8, b9, b10, b11, b12, b13, b14, b15] =>
      [b0, b1, b2, b3, b4, b5, b6 % 16 + 64, b7, b8 % 64 + 128, b9, b10, b11, b12, b13, b14, b15]
  | l => l

/-- The `newUUID` helper.  Its one effect, `io.ReadFull(rand.Reader, uuid)`,
is supplied as an argument: `Except.ok bytes` is a successful full read
of `bytes`, `Except.error e` a failed read (in which case Go returns
`("", err)`).  The `n != len(uuid)` guard of the source is kept as the
length test. -/
def newUUID (read : Except String (List Nat)) : Except String String :=
  match read with
  | Except.error e => Except.error e
  | Except.ok bytes =>
      if bytes.length ≠ 16 then Except.error "unexpected EOF"
      else Except.ok (String.mk ((uuidMask bytes).map hexByte).flatten)

/-- The string a call site that discards the error sees
(`uuid, _ := newUUID()`): the rendered uuid on success, the empty
string Go returned alongside the error on failure. -/
def uuidValue (read : Except String (List Nat)) : String :=
  match newUUID read with
  | Except.ok s => s
  | Except.error _ => ""

/-- `getBatchRequestEntryAttributes(&d, m, fifo)` of sqscli.go: on the
FIFO branch it generates a fresh uuid (error discarded), sets the
deduplication and group ids, and copies four system attributes into the
writable attribute map, dereferencing each source map entry in the
order the Go statements execute; on the standard branch it sets a one
second delivery delay. -/
def getBatchRequestEntryAttributes (req : SendMessageBatchRequestEntry) (m : Message)
    (fifo : Bool) (read : Except String (List Nat)) :
    Except String SendMessageBatchRequestEntry :=
  if fifo then do
    let uuid := uuidValue read
    let g ← deref "MessageGroupId" (m.attributes "MessageGroupId")
    let sq ← deref "SequenceNumber" (m.attributes "SequenceNumber")
    let sender ← deref "SenderId" (m.attributes "SenderId")
    let afrt ← deref "ApproximateFirstReceiveTimestamp" (m.attributes "ApproximateFirstReceiveTimestamp")
    let arc ← deref "ApproximateReceiveCount" (m.attributes "ApproximateReceiveCount")
    Except.ok { req with
      messageDeduplicationId := some uuid
      messageGroupId := some g
      messageAttributes :=
        setMsgAttr (setMsgAttr (setMsgAttr (setMsgAttr (setMsgAttr req.messageAttributes
          "SequenceNumber" ⟨"String", sq⟩)
          "MessageGroupId" ⟨"String", g⟩)
          "SenderId" ⟨"String", sender⟩)
          "ApproximateFirstReceiveTimestamp" ⟨"String", afrt⟩)
          "ApproximateReceiveCount" ⟨"String", arc⟩ }
  else Except.ok { req with delaySeconds := some 1 }

/-- Construction of one outbound entry inside the chunk loop of
`sendMessageBatch`: the struct literal dereferences the sent timestamp,
copies id and body, then `getBatchRequestEntryAttributes` finishes the
payload. -/
def buildEntry (m : Message) (fifo : Bool) (read : Except String (List Nat)) :
    Except String SendMessageBatchRequestEntry := do
  let st ← deref "SentTimestamp" (m.attributes "SentTimestamp")
  getBatchRequestEntryAttributes
    { id := m.messageId
      messageBody := m.body
      messageAttributes := [("SentTimestamp", ⟨"String", st⟩)]
      messageGroupId := none
      messageDeduplicationId := none
      delaySeconds := none } m fifo read

/-- The entry-construction loop over one chunk (`for _, m := range
messages[i:j]`).  `reads` supplies the random bytes of the successive
`newUUID` calls, indexed by position. -/
def buildEntries (fifo : Bool) (reads : Nat → Except String (List Nat)) :
    List Message → Except String (List SendMessageBatchRequestEntry)
  | [] => Except.ok []
  | m :: rest => do
    let e ← buildEntry m fifo (reads 0)
    let es ← buildEntries fifo (fun n => reads (n + 1)) rest
    Except.ok (e :: es)

/-- The successive slices `messages[i:j]` taken by the batching loop of
`sendMessageBatch` (`for i := 0; i < len(messages); i += batch`), with
`j = min (i+batch) len(messages)`. -/
def chunks {α : Type} (batch : Nat) : List α → List (List α)
  | [] => []
  | m :: rest => (m :: rest.take (batch - 1)) :: chunks batch (rest.drop (batch - 1))
termination_by l => l.length
decreasing_by simp [List.length_drop]; omega

/-- One `SendMessageBatch` remote call: the request payload
(destination queue url and entries) together with the outcome the
remote side returned for it. -/
structure SendBatchCall where
  queueUrl : String
  entries : List SendMessageBatchRequestEntry
  err : Option String
deriving DecidableEq

/-- Result of running the body of `sendMessageBatch`: the remote calls
that were issued, and the pending panic if entry construction crashed
(in which case no further calls were made). -/
structure SendRunResult where
  calls : List SendBatchCall
  crash : Option String
deriving DecidableEq

/-- The per-chunk part of `sendMessageBatch`: for each slice, build the
entries (a nil dereference here panics and stops everything), issue one
`SendMessageBatch` call, and move to the next slice regardless of the
call's outcome.  `reads` are the random bytes of successive `newUUID`
calls indexed by message position, `outcomes` the remote outcome of the
successive calls indexed by chunk position. -/
def sendChunks (queue : String) (fifo : Bool) :
    (Nat → Except String (List Nat)) → (Nat → Option String) →
    List (List Message) → SendRunResult
  | _, _, [] => ⟨[], none⟩
  | reads, outcomes, c :: cs =>
    match buildEntries fifo reads c with
    | Except.error e => ⟨[], some e⟩
    | Except.ok entries =>
      let r := sendChunks queue fifo (fun n => reads (n + c.length))
        (fun n => outcomes (n + 1)) cs
      ⟨⟨queue, entries, outcomes 0⟩ :: r.calls, r.crash⟩

/-- `sendMessageBatch(queue, messages, batch, fifo)` of sqscli.go:
slice the messages into chunks of `batch` and issue one send call per
chunk. -/
def sendMessageBatchRun (queue : String) (fifo : Bool)
    (reads : Nat → Except String (List Nat)) (outcomes : Nat → Option String)
    (messages : List Message) (batch : Nat) : SendRunResult :=
  sendChunks queue fifo reads outcomes (chunks batch messages)

/-- The `errors` slice `sendMessageBatch` returns: one entry per chunk
whose remote call failed, in chunk order. -/
def collectedErrors (r : SendRunResult) : List String :=
  r.calls.filterMap (fun c => c.err)

/-- Go's `unicode.IsSpace`, the separator predicate of
`strings.Fields`. -/
def goIsSpace (c : Char) : Bool :=
  let n := c.toNat
  (9 ≤ n && n ≤ 13) || n == 32 || n == 133 || n == 160 || n == 5760 ||
  (8192 ≤ n && n ≤ 8202) || n == 8232 || n == 8233 || n == 8239 || n == 8287 || n == 12288

/-- `strings.Fields`: split around runs of whitespace, dropping empty
pieces.  `cur` is the (reversed) field being accumulated. -/
def fieldsAux : List Char → List Char → List (List Char)
  | cur, [] => if cur = [] then [] else [cur.reverse]
  | cur, c :: rest =>
    if goIsSpace c then
      if cur = [] then fieldsAux [] rest
      else cur.reverse :: fieldsAux [] rest
    else fieldsAux (c :: cur) rest

/-- `strings.Join(fields, " ")`: interleave a single space between the
fields. -/
def joinSp : List (List Char) → List Char
  | [] => []
  | [f] => f
  | f :: g :: rest => f ++ ' ' :: joinSp (g :: rest)

/-- `strings.Join(strings.Fields(s), " ")` — the whitespace collapsing
of `formatCSV`. -/
def collapseSpaces (s : String) : String :=
  String.mk (joinSp (fieldsAux [] s.data))

/-- `strings.Replace(s, "\"", "\\\"", -1)`: every double quote becomes
a backslash-quote pair (for the single-character pattern this per-char
expansion is exactly Go's replacement of all occurrences). -/
def escapeQuotes (s : String) : String :=
  String.mk (s.data.flatMap (fun c => if c = '\"' then ['\\', '\"'] else [c]))

/-- `formatCSV` of sqscli.go: collapse whitespace and escape quotes in
the body, then print either the five FIFO columns (unquoted) or the
two standard columns (each wrapped in double quotes). -/
def formatCSV (m : Message) (fifo : Bool) : Except String String := do
  let mess := escapeQuotes (collapseSpaces m.body)
  if fifo then do
    let g ← deref "MessageGroupId" (m.attributes "MessageGroupId")
    let d ← deref "MessageDeduplicationId" (m.attributes "MessageDeduplicationId")
    let sq ← deref "SequenceNumber" (m.attributes "SequenceNumber")
    let st ← deref "SentTimestamp" (m.attributes "SentTimestamp")
    Except.ok (mess ++ "," ++ g ++ "," ++ d ++ "," ++ sq ++ "," ++ st)
  else do
    let st ← deref "SentTimestamp" (m.attributes "SentTimestamp")
    Except.ok ("\"" ++ mess ++ "\",\"" ++ st ++ "\"")

/-- `formatCSV` of the part_001 variant: the body and the attribute
values are printed verbatim, unquoted, with no whitespace or quote
processing in either branch. -/
def formatCSVPlain (m : Message) (fifo : Bool) : Except String String :=
  if fifo then do
    let g ← deref "MessageGroupId" (m.attributes "MessageGroupId")
    let d ← deref "MessageDeduplicationId" (m.attributes "MessageDeduplicationId")
    let sq ← deref "SequenceNumber" (m.attributes "SequenceNumber")
    let st ← deref "SentTimestamp" (m.attributes "SentTimestamp")
    Except.ok (m.body ++ "," ++ g ++ "," ++ d ++ "," ++ sq ++ "," ++ st)
  else do
    let st ← deref "SentTimestamp" (m.attributes "SentTimestamp")
    Except.ok (m.body ++ "," ++ st)

/-- `insertCSVHead`: the header row printed before the drain loop. -/
def insertCSVHead (fifo : Bool) : String :=
  if fifo then "Body,Message Group ID,Message Deduplication ID,Sequence Number,Sent"
  else "Body,Sent"

/-- One `DeleteMessageBatch` remote call payload: destination queue and
the (id, receipt handle) entries. -/
structure DeleteBatchCall where
  queueUrl : String
  entries : List (String × String)
deriving DecidableEq

/-- `deleteMessageBatch` of sqscli.go: build one entry per message from
its id and receipt handle, issue a single `DeleteMessageBatch` call,
and on failure print `Delete Error` and return normally (the retry and
`os.Exit(1)` are commented out in the source).  Returns the issued
call and the lines logged. -/
def deleteMessageBatch (queue : String) (messages : List Message)
    (outcome : Option String) : DeleteBatchCall × List String :=
  (⟨queue, messages.map (fun m => (m.messageId, m.receiptHandle))⟩,
   match outcome with
   | some e => ["Delete Error " ++ e]
   | none => [])

/-- The state of the remote queue after a `DeleteMessageBatch` call, as
the spec's transport contract describes the external broker (§4.1): a
failed call leaves its messages in the queue to reappear once the
visibility timeout elapses; a successful call removes them. -/
def queueAfterDelete (q : List Message) (batch : List Message)
    (outcome : Option String) : List Message :=
  match outcome with
  | some _ => q
  | none => q.filter (fun m => !((batch.map Message.messageId).contains m.messageId))

/-- An `sqs.SendMessageInput` as populated by `sendMessage` of the
part_001 variant. -/
structure SendMessageInput where
  messageAttributes : List (String × MessageAttributeValue)
  messageBody : String
  queueUrl : String
  messageDeduplicationId : Option String
  messageGroupId : Option String
  delaySeconds : Option Int
deriving DecidableEq

/-- `sendMessage(queue, message, fifo)` of the part_001 variant, up to
the remote call: the payload it submits.  Field population order (and
hence which nil dereference panics first) follows the Go statements. -/
def sendMessageInputOf (queue : String) (m : Message) (fifo : Bool)
    (read : Except String (List Nat)) : Except String SendMessageInput := do
  let st ← deref "SentTimestamp" (m.attributes "SentTimestamp")
  if fifo then do
    let uuid := uuidValue read
    let g ← deref "MessageGroupId" (m.attributes "MessageGroupId")
    let sq ← deref "SequenceNumber" (m.attributes "SequenceNumber")
    let sender ← deref "SenderId" (m.attributes "SenderId")
    let afrt ← deref "ApproximateFirstReceiveTimestamp" (m.attributes "ApproximateFirstReceiveTimestamp")
    let arc ← deref "ApproximateReceiveCount" (m.attributes "ApproximateReceiveCount")
    Except.ok
      { messageAttributes :=
          setMsgAttr (setMsgAttr (setMsgAttr (setMsgAttr (setMsgAttr
            [("SentTimestamp", ⟨"String", st⟩)]
            "SequenceNumber" ⟨"String", sq⟩)
            "MessageGroupId" ⟨"String", g⟩)
            "SenderId" ⟨"String", sender⟩)
            "ApproximateFirstReceiveTimestamp" ⟨"String", afrt⟩)
            "ApproximateReceiveCount" ⟨"String", arc⟩
        messageBody := m.body
        queueUrl := queue
        messageDeduplicationId := some uuid
        messageGroupId := some g
        delaySeconds := none }
  else
    Except.ok
      { messageAttributes := [("SentTimestamp", ⟨"String", st⟩)]
        messageBody := m.body
        queueUrl := queue
        messageDeduplicationId := none
        messageGroupId := none
        delaySeconds := some 1 }

/-- Observable steps of a `qtocsv` run, in program order: a
`ReceiveMessage` call (with the ids of the returned messages), a CSV
row printed to standard output, a `DeleteMessageBatch` call with its
outcome, a `SendMessageBatch` call with its outcome. -/
inductive Event where
  | receiveCall : String → List String → Event
  | csvRow : String → Event
  | deleteCall : String → List (String × String) → Option String → Event
  | sendCall : String → List SendMessageBatchRequestEntry → Option String → Event
deriving DecidableEq

/-- The per-batch `formatCSV` printing of the drain loop (a nil
dereference inside `formatCSV` panics and kills the run). -/
def formatRows (fifo : Bool) : List Message → Except String (List String)
  | [] => Except.ok []
  | m :: rest => do
    let row ← formatCSV m fifo
    let rows ← formatRows fifo rest
    Except.ok (row :: rows)

/-- The receive/print/delete loop of `toCSV` (sqscli.go): `batches` is
the sequence of nonempty `ReceiveMessage` results the queue yields (the
loop exits on the subsequent empty receive, recorded as the final
receive call); `deleteErrs` the outcomes of the successive delete
calls.  Returns the events in order and the accumulated
`readdMessages`. -/
def drainPhase (qURL : String) (fifo : Bool) (deleteErrs : Nat → Option String) :
    List (List Message) → Except String (List Event × List Message)
  | [] => Except.ok ([Event.receiveCall qURL []], [])
  | b :: bs => do
    let rows ← formatRows fifo b
    let (evs, readd) ← drainPhase qURL fifo (fun n => deleteErrs (n + 1)) bs
    Except.ok
      (Event.receiveCall qURL (b.map Message.messageId) ::
        (rows.map Event.csvRow ++
          (Event.deleteCall (deleteMessageBatch qURL b (deleteErrs 0)).1.queueUrl
             (deleteMessageBatch qURL b (deleteErrs 0)).1.entries (deleteErrs 0) :: evs)),
       b ++ readd)

/-- The whole `toCSV` run of sqscli.go: drain loop, then the staged
messages are re-sent to the same queue with `sendMessageBatch` in
chunks of 10; the run calls `log.Fatal` (the returned flag) exactly
when at least one chunk's send failed. -/
def toCSVRun (qURL : String) (fifo : Bool) (batches : List (List Message))
    (deleteErrs : Nat → Option String) (reads : Nat → Except String (List Nat))
    (sendErrs : Nat → Option String) : Except String (List Event × Bool) := do
  let (devs, readd) ← drainPhase qURL fifo deleteErrs batches
  let r := sendMessageBatchRun qURL fifo reads sendErrs readd 10
  match r.crash with
  | some e => Except.error e
  | none =>
    Except.ok
      (devs ++ r.calls.map (fun c => Event.sendCall c.queueUrl c.entries c.err),
       !(collectedErrors r).isEmpty)

/-- The attributes a received message must carry for the tool's
dereferences to succeed: the sent timestamp always, and on FIFO queues
the six further attributes `formatCSV` and the send paths read. -/
def wellFormed (fifo : Bool) (m : Message) : Prop :=
  (m.attributes "SentTimestamp").isSome = true ∧
  (fifo = true →
    (m.attributes "MessageGroupId").isSome = true ∧
    (m.attributes "MessageDeduplicationId").isSome = true ∧
    (m.attributes "SequenceNumber").isSome = true ∧
    (m.attributes "SenderId").isSome = true ∧
    (m.attributes "ApproximateFirstReceiveTimestamp").isSome = true ∧
    (m.attributes "ApproximateReceiveCount").isSome = true)

instance (fifo : Bool) (m : Message) : Decidable (wellFormed fifo m) := by
  unfold wellFormed; infer_instance

/-- Whether an event is a `SendMessageBatch` call. -/
def isSendCall : Event → Bool
  | Event.sendCall _ _ _ => true
  | _ => false

/-- Whether an event is a `DeleteMessageBatch` call. -/
def isDeleteCall : Event → Bool
  | Event.deleteCall _ _ _ => true
  | _ => false

/-- The queue a remote-call event targets (`none` for printed rows). -/
def eventQueue : Event → Option String
  | Event.receiveCall q _ => some q
  | Event.csvRow _ => none
  | Event.deleteCall q _ _ => some q
  | Event.sendCall q _ _ => some q

/-- Forget the remote outcome of a delete call (used to compare two
runs that differ only in their delete outcomes). -/
def stripDeleteOutcome : Event → Event
  | Event.deleteCall q es _ => Event.deleteCall q es none
  | e => e

/-- The entries a send-call event submitted. -/
def sendPayload : Event → Option (List SendMessageBatchRequestEntry)
  | Event.sendCall _ es _ => some es
  | _ => none

/-- All entries submitted by the send calls of an event trace, in
order. -/
def sentEntries (evs : List Event) : List SendMessageBatchRequestEntry :=
  (evs.filterMap sendPayload).flatten

/-- A fully-attributed example FIFO message, used as concrete input. -/
def mGood : Message :=
  ⟨"id-good", "hello", "rh-good", fun k =>
    if k = "SentTimestamp" then some "t2"
    else if k = "MessageGroupId" then some "g1"
    else if k = "MessageDeduplicationId" then some "d1"
    else if k = "SequenceNumber" then some "7"
    else if k = "SenderId" then some "snd"
    else if k = "ApproximateFirstReceiveTimestamp" then some "afrt"
    else if k = "ApproximateReceiveCount" then some "1" else none⟩

/-- An example message carrying only its sent timestamp: on an ordered
queue its group id is missing (a malformed upstream producer). -/
def mBad : Message :=
  ⟨"id-bad", "payload", "rh-bad", fun k =>
    if k = "SentTimestamp" then some "t1" else none⟩

/-- An example standard-queue message with body `hello world`. -/
def mHello : Message :=
  ⟨"id-hello", "hello world", "rh-hello", fun k =>
    if k = "SentTimestamp" then some "t1" else none⟩

/-- An example FIFO message whose carried deduplication id happens to
equal the uuid rendered from an all-zero random draw. -/
def mClash : Message :=
  ⟨"id-clash", "hello", "rh-clash", fun k =>
    if k = "SentTimestamp" then some "t2"
    else if k = "MessageGroupId" then some "g1"
    else if k = "MessageDeduplicationId" then some "00000000000040008000000000000000"
    else if k = "SequenceNumber" then some "7"
    else if k = "SenderId" then some "snd"
    else if k = "ApproximateFirstReceiveTimestamp" then some "afrt"
    else if k = "ApproximateReceiveCount" then some "1" else none⟩

/-! Helper lemmas. -/

theorem exbind_ok {α β : Type} (x : Except String α) (f : α → Except String β) (b : β) :
    (x >>= f) = Except.ok b ↔ ∃ a, x = Except.ok a ∧ f a = Except.ok b := by
  cases x <;> simp [Bind.bind, Except.bind]

theorem exbind_error {α β : Type} (x : Except String α) (f : α → Except String β) (e : String) :
    x = Except.error e → (x >>= f) = Except.error e := by
  intro h; rw [h]; rfl

theorem chunks_flatten {α : Type} (batch : Nat) (l : List α) :
    (chunks batch l).flatten = l := by
  induction l using chunks.induct batch with
  | case1 => simp [chunks]
  | case2 m rest ih =>
    rw [chunks]
    simp [ih]

theorem chunks_le {α : Type} (batch : Nat) (hb : 0 < batch) (l : List α) :
    ∀ c ∈ chunks batch l, c.length ≤ batch := by
  induction l using chunks.induct batch with
  | case1 => simp [chunks]
  | case2 m rest ih =>
    rw [chunks]
    intro c hc
    rcases List.mem_cons.mp hc with h | h
    · subst h
      simp [List.length_take]
      omega
    · exact ih c h

theorem chunks_eq_nil_iff {α : Type} (batch : Nat) (l : List α) :
    chunks batch l = [] ↔ l = [] := by
  cases l with
  | nil => simp [chunks]
  | cons m rest => rw [chunks]; simp

theorem chunks_length {α : Type} (batch : Nat) (hb : 0 < batch) (l : List α) :
    (chunks batch l).length = (l.length + batch - 1) / batch := by
  induction l using chunks.induct batch with
  | case1 =>
    rw [chunks]
    simp [Nat.div_eq_of_lt (show batch - 1 < batch by omega)]
  | case2 m rest ih =>
    rw [chunks]
    simp only [List.length_cons, ih, List.length_drop]
    rcases le_or_lt (batch - 1) rest.length with h | h
    · have h1 : rest.length - (batch - 1) + batch - 1 = rest.length := by omega
      have h2 : rest.length + 1 + batch - 1 = rest.length + batch := by omega
      rw [h1, h2, Nat.add_div_right _ hb]
    · have h1 : rest.length - (batch - 1) + batch - 1 = batch - 1 := by omega
      have h2 : rest.length + 1 + batch - 1 = rest.length + batch := by omega
      rw [h1, h2, Nat.add_div_right _ hb,
        Nat.div_eq_of_lt (show batch - 1 < batch by omega),
        Nat.div_eq_of_lt (show rest.length < batch by omega)]

theorem chunks_dropLast {α : Type} (batch : Nat) (hb : 0 < batch) (l : List α) :
    ∀ c ∈ (chunks batch l).dropLast, c.length = batch := by
  induction l using chunks.induct batch with
  | case1 => simp [chunks]
  | case2 m rest ih =>
    rw [chunks]
    rcases hcs : chunks batch (rest.drop (batch - 1)) with _ | ⟨c1, cs⟩
    · simp
    · rw [List.dropLast_cons_of_ne_nil (by simp)]
      intro c hc
      rcases List.mem_cons.mp hc with h | h
      · subst h
        have hne : rest.drop (batch - 1) ≠ [] := by
          intro hnil
          rw [hnil] at hcs
          simp [chunks] at hcs
        have : batch - 1 ≤ rest.length := by
          by_contra hlt
          push_neg at hlt
          exact hne (List.drop_eq_nil_of_le (by omega))
        simp [List.length_take]
        omega
      · rw [← hcs] at h
        exact ih c h

theorem buildEntry_ok (m : Message) (fifo : Bool) (read : Except String (List Nat))
    (h : wellFormed fifo m) :
    ∃ e, buildEntry m fifo read = Except.ok e ∧
      e.id = m.messageId ∧
      e.messageBody = m.body ∧
      (fifo = true →
        e.messageDeduplicationId = some (uuidValue read) ∧
        e.messageGroupId = m.attributes "MessageGroupId") ∧
      (fifo = false → e.delaySeconds = some 1) := by
  obtain ⟨h1, h2⟩ := h
  obtain ⟨st, hst⟩ := Option.isSome_iff_exists.mp h1
  cases fifo with
  | false =>
    refine ⟨{ id := m.messageId, messageBody := m.body,
              messageAttributes := [("SentTimestamp", ⟨"String", st⟩)],
              messageGroupId := none, messageDeduplicationId := none,
              delaySeconds := some 1 }, ?_, rfl, rfl, by simp, fun _ => rfl⟩
    simp [buildEntry, getBatchRequestEntryAttributes, deref, hst, Bind.bind, Except.bind]
  | true =>
    obtain ⟨hg1, hd1, hq1, hs1, ha1, hc1⟩ := h2 rfl
    obtain ⟨g, hg⟩ := Option.isSome_iff_exists.mp hg1
    obtain ⟨sq, hsq⟩ := Option.isSome_iff_exists.mp hq1
    obtain ⟨sd, hsd⟩ := Option.isSome_iff_exists.mp hs1
    obtain ⟨fa, hfa⟩ := Option.isSome_iff_exists.mp ha1
    obtain ⟨rc, hrc⟩ := Option.isSome_iff_exists.mp hc1
    refine ⟨{ id := m.messageId, messageBody := m.body,
              messageAttributes :=
                setMsgAttr (setMsgAttr (setMsgAttr (setMsgAttr (setMsgAttr
                  [("SentTimestamp", ⟨"String", st⟩)]
                  "SequenceNumber" ⟨"String", sq⟩)
                  "MessageGroupId" ⟨"String", g⟩)
                  "SenderId" ⟨"String", sd⟩)
                  "ApproximateFirstReceiveTimestamp" ⟨"String", fa⟩)
                  "ApproximateReceiveCount" ⟨"String", rc⟩,
              messageGroupId := some g, messageDeduplicationId := some (uuidValue read),
              delaySeconds := none }, ?_, rfl, rfl, fun _ => ⟨rfl, by rw [hg]⟩, by simp⟩
    simp [buildEntry, getBatchRequestEntryAttributes, deref, hst, hg, hsq, hsd, hfa, hrc,
      Bind.bind, Except.bind]

theorem buildEntry_ok_inv (m : Message) (fifo : Bool) (read : Except String (List Nat))
    (e : SendMessageBatchRequestEntry) (h : buildEntry m fifo read = Except.ok e) :
    e.id = m.messageId ∧ e.messageBody = m.body ∧
    (fifo = true → e.messageDeduplicationId = some (uuidValue read)) := by
  unfold buildEntry at h
  rw [exbind_ok] at h
  obtain ⟨st, hst, h⟩ := h
  cases fifo with
  | false =>
    simp only [getBatchRequestEntryAttributes, if_neg (by simp : ¬ false = true),
      Bool.false_eq_true, if_false, Except.ok.injEq] at h
    subst h
    simp
  | true =>
    simp only [getBatchRequestEntryAttributes, if_pos rfl, if_true, exbind_ok] at h
    obtain ⟨g, hg, sq, hsq, sd, hsd, fa, hfa, rc, hrc, h⟩ := h
    rw [Except.ok.injEq] at h
    subst h
    simp

theorem buildEntry_missing_group (m : Message) (read : Except String (List Nat))
    (hst : (m.attributes "SentTimestamp").isSome = true)
    (hmiss : m.attributes "MessageGroupId" = none) :
    buildEntry m true read =
      Except.error "runtime error: invalid memory address or nil pointer dereference: MessageGroupId" := by
  obtain ⟨st, hst2⟩ := Option.isSome_iff_exists.mp hst
  simp [buildEntry, getBatchRequestEntryAttributes, deref, hst2, hmiss, Bind.bind, Except.bind]

theorem buildEntries_append (fifo : Bool) (l₁ : List Message) :
    ∀ (reads : Nat → Except String (List Nat)) (l₂ : List Message),
    buildEntries fifo reads (l₁ ++ l₂) =
      (buildEntries fifo reads l₁ >>= fun es₁ =>
       buildEntries fifo (fun n => reads (n + l₁.length)) l₂ >>= fun es₂ =>
       Except.ok (es₁ ++ es₂)) := by
  induction l₁ with
  | nil =>
    intro reads l₂
    simp only [List.nil_append, buildEntries, List.length_nil, Nat.add_zero]
    cases h : buildEntries fifo reads l₂ <;> simp [Bind.bind, Except.bind]
  | cons m t ih =>
    intro reads l₂
    simp only [List.cons_append, buildEntries]
    cases hm : buildEntry m fifo (reads 0) with
    | error e => simp [Bind.bind, Except.bind]
    | ok e =>
      rw [show (fun n => reads (n + (m :: t).length)) = (fun n => (fun k => reads (k + 1)) (n + t.length)) from by
        funext n; simp [Nat.add_comm, Nat.add_assoc, Nat.add_left_comm]]
      cases ht : buildEntries fifo (fun n => reads (n + 1)) (t ++ l₂) <;>
        rw [ih (fun n => reads (n + 1)) l₂] at ht
      · rcases hsplit : buildEntries fifo (fun n => reads (n + 1)) t with e₁ | es₁
        · rw [hsplit] at ht
          simp only [Bind.bind, Except.bind] at ht ⊢
          rw [ht]
        · rw [hsplit] at ht
          simp only [Bind.bind, Except.bind] at ht ⊢
          rcases h₂ : buildEntries fifo (fun n => (fun k => reads (k + 1)) (n + t.length)) l₂ with e₂ | es₂ <;>
            rw [h₂] at ht <;> simp_all
      · rcases hsplit : buildEntries fifo (fun n => reads (n + 1)) t with e₁ | es₁ <;> rw [hsplit] at ht
        · simp [Bind.bind, Except.bind] at ht
        · simp only [Bind.bind, Except.bind] at ht ⊢
          rcases h₂ : buildEntries fifo (fun n => (fun k => reads (k + 1)) (n + t.length)) l₂ with e₂ | es₂ <;>
            rw [h₂] at ht <;> simp_all

theorem buildEntries_ok_of_wf (fifo : Bool) (l : List Message) :
    ∀ (reads : Nat → Except String (List Nat)), (∀ m ∈ l, wellFormed fifo m) →
    ∃ es, buildEntries fifo reads l = Except.ok es := by
  induction l with
  | nil => exact fun reads _ => ⟨[], rfl⟩
  | cons m t ih =>
    intro reads h
    obtain ⟨e, he, -⟩ := buildEntry_ok m fifo (reads 0) (h m (List.mem_cons_self m t))
    obtain ⟨es, hes⟩ := ih (fun n => reads (n + 1)) (fun m hm => h m (List.mem_cons_of_mem _ hm))
    exact ⟨e :: es, by simp [buildEntries, he, hes, Bind.bind, Except.bind]⟩

theorem buildEntries_ok_inv (fifo : Bool) (l : List Message) :
    ∀ (reads : Nat → Except String (List Nat)) es, buildEntries fifo reads l = Except.ok es →
    es.map (fun e => e.messageBody) = l.map Message.body ∧
    es.map (fun e => e.id) = l.map Message.messageId ∧
    (fifo = true →
      es.map (fun e => e.messageDeduplicationId) =
        (List.range l.length).map (fun i => some (uuidValue (reads i)))) := by
  induction l with
  | nil =>
    intro reads es h
    simp only [buildEntries, Except.ok.injEq] at h
    subst h
    simp
  | cons m t ih =>
    intro reads es h
    simp only [buildEntries, exbind_ok] at h
    obtain ⟨e, he, es', hes', hcons⟩ := h
    rw [Except.ok.injEq] at hcons
    subst hcons
    obtain ⟨hid, hbody, hdedup⟩ := buildEntry_ok_inv m fifo (reads 0) e he
    obtain ⟨ih1, ih2, ih3⟩ := ih (fun n => reads (n + 1)) es' hes'
    refine ⟨by simp [hbody, ih1], by simp [hid, ih2], fun hf => ?_⟩
    simp only [List.map_cons, hdedup hf, ih3 hf, List.length_cons, List.range_succ_eq_map,
      List.map_map]
    rfl

theorem sendChunks_ok (queue : String) (fifo : Bool) (cs : List (List Message)) :
    ∀ (reads : Nat → Except String (List Nat)) (outcomes : Nat → Option String) es,
    buildEntries fifo reads cs.flatten = Except.ok es →
    (sendChunks queue fifo reads outcomes cs).crash = none ∧
    (sendChunks queue fifo reads outcomes cs).calls.length = cs.length ∧
    ((sendChunks queue fifo reads outcomes cs).calls.map SendBatchCall.entries).flatten = es ∧
    (sendChunks queue fifo reads outcomes cs).calls.map SendBatchCall.err =
      (List.range cs.length).map outcomes ∧
    ∀ call ∈ (sendChunks queue fifo reads outcomes cs).calls, call.queueUrl = queue := by
  induction cs with
  | nil =>
    intro reads outcomes es h
    simp only [List.flatten_nil, buildEntries, Except.ok.injEq] at h
    subst h
    simp [sendChunks]
  | cons c cs' ih =>
    intro reads outcomes es h
    rw [List.flatten_cons, buildEntries_append] at h
    rcases hc : buildEntries fifo reads c with e₁ | es₁ <;> rw [hc] at h
    · simp [Bind.bind, Except.bind] at h
    · rcases hrest : buildEntries fifo (fun n => reads (n + c.length)) cs'.flatten with e₂ | es₂ <;>
        rw [hrest] at h
      · simp [Bind.bind, Except.bind] at h
      · simp only [Bind.bind, Except.bind, Except.ok.injEq] at h
        subst h
        obtain ⟨ih1, ih2, ih3, ih4, ih5⟩ :=
          ih (fun n => reads (n + c.length)) (fun n => outcomes (n + 1)) es₂ hrest
        simp only [sendChunks, hc]
        refine ⟨ih1, by simp [ih2], by simp [ih3], ?_, ?_⟩
        · simp only [List.map_cons, ih4, List.length_cons, List.range_succ_eq_map,
            List.map_map]
          rfl
        · intro call hcall
          rcases List.mem_cons.mp hcall with hh | hh
          · subst hh; rfl
          · exact ih5 call hh

theorem formatCSV_ok (m : Message) (fifo : Bool) (h : wellFormed fifo m) :
    ∃ row, formatCSV m fifo = Except.ok row := by
  obtain ⟨h1, h2⟩ := h
  obtain ⟨st, hst⟩ := Option.isSome_iff_exists.mp h1
  cases fifo with
  | false =>
    exact ⟨"\"" ++ escapeQuotes (collapseSpaces m.body) ++ "\",\"" ++ st ++ "\"",
      by simp [formatCSV, deref, hst, Bind.bind, Except.bind]⟩
  | true =>
    obtain ⟨hg1, hd1, hq1, -, -, -⟩ := h2 rfl
    obtain ⟨g, hg⟩ := Option.isSome_iff_exists.mp hg1
    obtain ⟨d, hd⟩ := Option.isSome_iff_exists.mp hd1
    obtain ⟨sq, hsq⟩ := Option.isSome_iff_exists.mp hq1
    exact ⟨escapeQuotes (collapseSpaces m.body) ++ "," ++ g ++ "," ++ d ++ "," ++ sq ++ "," ++ st,
      by simp [formatCSV, deref, hst, hg, hd, hsq, Bind.bind, Except.bind]⟩

theorem formatRows_ok (fifo : Bool) (b : List Message) (h : ∀ m ∈ b, wellFormed fifo m) :
    ∃ rows, formatRows fifo b = Except.ok rows := by
  induction b with
  | nil => exact ⟨[], rfl⟩
  | cons m t ih =>
    obtain ⟨row, hrow⟩ := formatCSV_ok m fifo (h m (List.mem_cons_self m t))
    obtain ⟨rows, hrows⟩ := ih (fun m hm => h m (List.mem_cons_of_mem _ hm))
    exact ⟨row :: rows, by simp [formatRows, hrow, hrows, Bind.bind, Except.bind]⟩

theorem drainPhase_ok (qURL : String) (fifo : Bool) (batches : List (List Message)) :
    ∀ (dErrs : Nat → Option String), (∀ b ∈ batches, ∀ m ∈ b, wellFormed fifo m) →
    ∃ evs, drainPhase qURL fifo dErrs batches = Except.ok (evs, batches.flatten) ∧
      (∀ e ∈ evs, isSendCall e = false) ∧
      (∀ e ∈ evs, ∀ q, eventQueue e = some q → q = qURL) ∧
      evs.countP (fun e => isDeleteCall e) = batches.length := by
  induction batches with
  | nil =>
    intro dErrs _
    exact ⟨_, rfl, by simp [isSendCall], by simp [eventQueue], by simp [isDeleteCall]⟩
  | cons b bs ih =>
    intro dErrs hwf
    obtain ⟨rows, hrows⟩ := formatRows_ok fifo b (hwf b (List.mem_cons_self b bs))
    obtain ⟨evs, hevs, hsend, hq, hcnt⟩ :=
      ih (fun n => dErrs (n + 1)) (fun b2 hb2 => hwf b2 (List.mem_cons_of_mem _ hb2))
    refine ⟨Event.receiveCall qURL (b.map Message.messageId) ::
        (rows.map Event.csvRow ++
          (Event.deleteCall (deleteMessageBatch qURL b (dErrs 0)).1.queueUrl
             (deleteMessageBatch qURL b (dErrs 0)).1.entries (dErrs 0) :: evs)),
      by simp [drainPhase, hrows, hevs, Bind.bind, Except.bind], ?_, ?_, ?_⟩
    · intro e he
      rcases List.mem_cons.mp he with h | h
      · subst h; rfl
      · rcases List.mem_append.mp h with h | h
        · obtain ⟨row, -, hrow⟩ := List.mem_map.mp h
          subst hrow; rfl
        · rcases List.mem_cons.mp h with h | h
          · subst h; rfl
          · exact hsend e h
    · intro e he q hq2
      rcases List.mem_cons.mp he with h | h
      · subst h; simp [eventQueue] at hq2; exact hq2.symm
      · rcases List.mem_append.mp h with h | h
        · obtain ⟨row, -, hrow⟩ := List.mem_map.mp h
          subst hrow; simp [eventQueue] at hq2
        · rcases List.mem_cons.mp h with h | h
          · subst h; simp [eventQueue, deleteMessageBatch] at hq2; exact hq2.symm
          · exact hq e h q hq2
    · have h0 : (rows.map Event.csvRow).countP (fun e => isDeleteCall e) = 0 := by
        rw [List.countP_eq_zero]
        intro e he
        obtain ⟨row, -, hrow⟩ := List.mem_map.mp he
        subst hrow
        simp [isDeleteCall]
      simp only [List.countP_cons, List.countP_append, h0, hcnt]
      simp [isDeleteCall]

theorem drainPhase_independent (qURL : String) (fifo : Bool) (batches : List (List Message)) :
    ∀ (d₁ d₂ : Nat → Option String) evs₁ readd,
    drainPhase qURL fifo d₁ batches = Except.ok (evs₁, readd) →
    ∃ evs₂, drainPhase qURL fifo d₂ batches = Except.ok (evs₂, readd) ∧
      evs₁.map stripDeleteOutcome = evs₂.map stripDeleteOutcome := by
  induction batches with
  | nil =>
    intro d₁ d₂ evs₁ readd h
    simp only [drainPhase, Except.ok.injEq, Prod.mk.injEq] at h
    obtain ⟨h1, h2⟩ := h
    subst h1; subst h2
    exact ⟨_, rfl, rfl⟩
  | cons b bs ih =>
    intro d₁ d₂ evs₁ readd h
    simp only [drainPhase, exbind_ok] at h
    obtain ⟨rows, hrows, ⟨evs', readd'⟩, hrest, hcons⟩ := h
    rw [Except.ok.injEq, Prod.mk.injEq] at hcons
    obtain ⟨h1, h2⟩ := hcons
    subst h1; subst h2
    obtain ⟨evs₂, hevs₂, hmap⟩ := ih (fun n => d₁ (n + 1)) (fun n => d₂ (n + 1)) evs' readd' hrest
    refine ⟨Event.receiveCall qURL (b.map Message.messageId) ::
        (rows.map Event.csvRow ++
          (Event.deleteCall (deleteMessageBatch qURL b (d₂ 0)).1.queueUrl
             (deleteMessageBatch qURL b (d₂ 0)).1.entries (d₂ 0) :: evs₂)),
      by simp [drainPhase, hrows, hevs₂, Bind.bind, Except.bind], ?_⟩
    simp only [List.map_cons, List.map_append, stripDeleteOutcome, deleteMessageBatch, hmap]

theorem sendMessageBatchRun_eq (queue : String) (fifo : Bool)
    (reads : Nat → Except String (List Nat)) (outcomes : Nat → Option String)
    (messages : List Message) (batch : Nat) :
    sendMessageBatchRun queue fifo reads outcomes messages batch =
      sendChunks queue fifo reads outcomes (chunks batch messages) := rfl

theorem toCSVRun_ok (qURL : String) (fifo : Bool) (batches : List (List Message))
    (dErrs : Nat → Option String) (reads : Nat → Except String (List Nat))
    (sErrs : Nat → Option String)
    (hwf : ∀ b ∈ batches, ∀ m ∈ b, wellFormed fifo m) :
    ∃ devs es,
      drainPhase qURL fifo dErrs batches = Except.ok (devs, batches.flatten) ∧
      buildEntries fifo reads batches.flatten = Except.ok es ∧
      (∀ e ∈ devs, isSendCall e = false) ∧
      (∀ e ∈ devs, ∀ q, eventQueue e = some q → q = qURL) ∧
      toCSVRun qURL fifo batches dErrs reads sErrs =
        Except.ok
          (devs ++ (sendMessageBatchRun qURL fifo reads sErrs batches.flatten 10).calls.map
            (fun c => Event.sendCall c.queueUrl c.entries c.err),
           !(collectedErrors (sendMessageBatchRun qURL fifo reads sErrs batches.flatten 10)).isEmpty) := by
  obtain ⟨devs, hdrain, hnosend, hqueue, -⟩ := drainPhase_ok qURL fifo batches dErrs hwf
  have hwf2 : ∀ m ∈ batches.flatten, wellFormed fifo m := by
    intro m hm
    obtain ⟨b, hb, hmb⟩ := List.mem_flatten.mp hm
    exact hwf b hb m hmb
  obtain ⟨es, hes⟩ := buildEntries_ok_of_wf fifo batches.flatten reads hwf2
  have hch : buildEntries fifo reads (chunks 10 batches.flatten).flatten = Except.ok es := by
    rw [chunks_flatten]; exact hes
  obtain ⟨hcrash, -, -, -, -⟩ :=
    sendChunks_ok qURL fifo (chunks 10 batches.flatten) reads sErrs es hch
  refine ⟨devs, es, hdrain, hes, hnosend, hqueue, ?_⟩
  simp only [toCSVRun, hdrain, Bind.bind, Except.bind]
  rw [show (sendMessageBatchRun qURL fifo reads sErrs batches.flatten 10).crash = none from hcrash]

theorem sendMessageInputOf_ok (q : String) (m : Message) (fifo : Bool)
    (read : Except String (List Nat)) (h : wellFormed fifo m) :
    ∃ inp, sendMessageInputOf q m fifo read = Except.ok inp ∧
      inp.messageBody = m.body ∧ inp.queueUrl = q ∧
      (fifo = true →
        inp.messageDeduplicationId = some (uuidValue read) ∧
        inp.messageGroupId = m.attributes "MessageGroupId") ∧
      (fifo = false → inp.delaySeconds = some 1) := by
  obtain ⟨h1, h2⟩ := h
  obtain ⟨st, hst⟩ := Option.isSome_iff_exists.mp h1
  cases fifo with
  | false =>
    refine ⟨{ messageAttributes := [("SentTimestamp", ⟨"String", st⟩)],
              messageBody := m.body, queueUrl := q,
              messageDeduplicationId := none, messageGroupId := none,
              delaySeconds := some 1 }, ?_, rfl, rfl, by simp, fun _ => rfl⟩
    simp [sendMessageInputOf, deref, hst, Bind.bind, Except.bind]
  | true =>
    obtain ⟨hg1, hd1, hq1, hs1, ha1, hc1⟩ := h2 rfl
    obtain ⟨g, hg⟩ := Option.isSome_iff_exists.mp hg1
    obtain ⟨sq, hsq⟩ := Option.isSome_iff_exists.mp hq1
    obtain ⟨sd, hsd⟩ := Option.isSome_iff_exists.mp hs1
    obtain ⟨fa, hfa⟩ := Option.isSome_iff_exists.mp ha1
    obtain ⟨rc, hrc⟩ := Option.isSome_iff_exists.mp hc1
    refine ⟨{ messageAttributes :=
                setMsgAttr (setMsgAttr (setMsgAttr (setMsgAttr (setMsgAttr
                  [("SentTimestamp", ⟨"String", st⟩)]
                  "SequenceNumber" ⟨"String", sq⟩)
                  "MessageGroupId" ⟨"String", g⟩)
                  "SenderId" ⟨"String", sd⟩)
                  "ApproximateFirstReceiveTimestamp" ⟨"String", fa⟩)
                  "ApproximateReceiveCount" ⟨"String", rc⟩,
              messageBody := m.body, queueUrl := q,
              messageDeduplicationId := some (uuidValue read), messageGroupId := some g,
              delaySeconds := none }, ?_, rfl, rfl, fun _ => ⟨rfl, by rw [hg]⟩, by simp⟩
    simp [sendMessageInputOf, deref, hst, hg, hsq, hsd, hfa, hrc, Bind.bind, Except.bind]

theorem sendMessageInputOf_ok_inv (q : String) (m : Message) (fifo : Bool)
    (read : Except String (List Nat)) (inp : SendMessageInput)
    (h : sendMessageInputOf q m fifo read = Except.ok inp) :
    inp.messageBody = m.body ∧ inp.queueUrl = q := by
  unfold sendMessageInputOf at h
  rw [exbind_ok] at h
  obtain ⟨st, hst, h⟩ := h
  cases fifo with
  | false =>
    simp only [Bool.false_eq_true, if_false, Except.ok.injEq] at h
    subst h
    exact ⟨rfl, rfl⟩
  | true =>
    simp only [if_pos rfl, if_true, exbind_ok] at h
    obtain ⟨g, hg, sq, hsq, sd, hsd, fa, hfa, rc, hrc, h⟩ := h
    rw [Except.ok.injEq] at h
    subst h
    exact ⟨rfl, rfl⟩

/-! Claim theorems. -/

/-- C2: for every list of messages and chunk size 10, the batching loop
of `sendMessageBatch` (whose successive slices are `chunks 10`)
partitions the list into exactly `⌈N/10⌉` consecutive slices, each of
length at most 10, only the last possibly shorter, and the
concatenation of the slices is the original list in order. -/
theorem c2_sendMessageBatch_chunking (l : List Message) :
    (chunks 10 l).length = (l.length + 9) / 10 ∧
    (∀ c ∈ chunks 10 l, c.length ≤ 10) ∧
    (chunks 10 l).flatten = l ∧
    (∀ c ∈ (chunks 10 l).dropLast, c.length = 10) := by
  refine ⟨?_, chunks_le 10 (by norm_num) l, chunks_flatten 10 l,
    chunks_dropLast 10 (by norm_num) l⟩
  have h := chunks_length 10 (by norm_num) l
  rw [show l.length + 10 - 1 = l.length + 9 by omega] at h
  exact h

/-- C5: whenever outbound-entry construction succeeds, the re-send run
of `sendMessageBatch` crashes on nothing, submits exactly one entry per
drained message, and every submitted entry's body is byte-for-byte the
received message's body, in order; likewise the single-message
`sendMessage` path copies the body unchanged into its payload. -/
theorem c5_resend_preserves_bodies (queue : String) (fifo : Bool)
    (reads : Nat → Except String (List Nat)) (outcomes : Nat → Option String)
    (messages : List Message) (es : List SendMessageBatchRequestEntry)
    (h : buildEntries fifo reads messages = Except.ok es) :
    (sendMessageBatchRun queue fifo reads outcomes messages 10).crash = none ∧
    ((sendMessageBatchRun queue fifo reads outcomes messages 10).calls.map
      SendBatchCall.entries).flatten.map (fun e => e.messageBody) =
      messages.map Message.body ∧
    ((sendMessageBatchRun queue fifo reads outcomes messages 10).calls.map
      SendBatchCall.entries).flatten.length = messages.length ∧
    ∀ (q2 : String) (m2 : Message) (f2 : Bool) (r2 : Except String (List Nat))
      (inp : SendMessageInput),
      sendMessageInputOf q2 m2 f2 r2 = Except.ok inp → inp.messageBody = m2.body := by
  have hch : buildEntries fifo reads (chunks 10 messages).flatten = Except.ok es := by
    rw [chunks_flatten]; exact h
  obtain ⟨h1, h2, h3, h4, h5⟩ := sendChunks_ok queue fifo (chunks 10 messages) reads outcomes es hch
  obtain ⟨hb, hi, hd⟩ := buildEntries_ok_inv fifo messages reads es h
  rw [sendMessageBatchRun_eq]
  refine ⟨h1, ?_, ?_, ?_⟩
  · rw [h3]; exact hb
  · rw [h3]
    have := congrArg List.length hb
    simpa using this
  · intro q2 m2 f2 r2 inp hinp
    exact (sendMessageInputOf_ok_inv q2 m2 f2 r2 inp hinp).1

/-- C7: on a well-formed drain, the re-send phase issues one send call
per chunk — `⌈N/10⌉` calls no matter what the send outcomes are, so an
early failed chunk never stops the later chunks — collects exactly the
failed chunks' errors in order, and the run ends in `log.Fatal`
(non-zero exit) precisely when at least one chunk's send call failed. -/
theorem c7_failed_chunk_does_not_block_rest (qURL : String) (fifo : Bool)
    (batches : List (List Message)) (dErrs sErrs : Nat → Option String)
    (reads : Nat → Except String (List Nat))
    (hwf : ∀ b ∈ batches, ∀ m ∈ b, wellFormed fifo m) :
    ∃ evs fatal,
      toCSVRun qURL fifo batches dErrs reads sErrs = Except.ok (evs, fatal) ∧
      (sendMessageBatchRun qURL fifo reads sErrs batches.flatten 10).calls.length =
        (batches.flatten.length + 9) / 10 ∧
      (sendMessageBatchRun qURL fifo reads sErrs batches.flatten 10).calls.map
        SendBatchCall.err =
        (List.range ((batches.flatten.length + 9) / 10)).map sErrs ∧
      collectedErrors (sendMessageBatchRun qURL fifo reads sErrs batches.flatten 10) =
        ((List.range ((batches.flatten.length + 9) / 10)).map sErrs).filterMap id ∧
      (fatal = true ↔ ∃ i < (batches.flatten.length + 9) / 10, sErrs i ≠ none) := by
  obtain ⟨devs, es, hdrain, hes, -, -, hrun⟩ := toCSVRun_ok qURL fifo batches dErrs reads sErrs hwf
  have hch : buildEntries fifo reads (chunks 10 batches.flatten).flatten = Except.ok es := by
    rw [chunks_flatten]; exact hes
  obtain ⟨h1, h2, h3, h4, h5⟩ :=
    sendChunks_ok qURL fifo (chunks 10 batches.flatten) reads sErrs es hch
  have hnum : (chunks 10 batches.flatten).length = (batches.flatten.length + 9) / 10 := by
    have h := chunks_length 10 (by norm_num) batches.flatten
    rw [show batches.flatten.length + 10 - 1 = batches.flatten.length + 9 by omega] at h
    exact h
  have herr : collectedErrors (sendMessageBatchRun qURL fifo reads sErrs batches.flatten 10) =
      ((List.range ((batches.flatten.length + 9) / 10)).map sErrs).filterMap id := by
    rw [collectedErrors, sendMessageBatchRun_eq, ← hnum, ← h4, List.filterMap_map]
    rfl
  refine ⟨_, _, hrun, ?_, ?_, herr, ?_⟩
  · rw [sendMessageBatchRun_eq, h2, hnum]
  · rw [sendMessageBatchRun_eq, h4, hnum]
  · rw [herr]
    rw [Bool.not_eq_eq_eq_not, Bool.not_true, List.isEmpty_eq_false, ne_eq,
      List.filterMap_eq_nil_iff]
    constructor
    · intro hne
      by_contra hall
      push_neg at hall
      exact hne (fun a ha => by
        obtain ⟨i, hi, rfl⟩ := List.mem_map.mp ha
        exact hall i (List.mem_range.mp hi))
    · intro ⟨i, hi, hne⟩ hall
      exact hne (hall (sErrs i) (List.mem_map.mpr ⟨i, List.mem_range.mpr hi, rfl⟩))

theorem delete_before_send_positions (l₁ l₂ : List Event)
    (h₁ : ∀ e ∈ l₁, isSendCall e = false) (h₂ : ∀ e ∈ l₂, isDeleteCall e = false) :
    ∀ (i j : Nat) (hi : i < (l₁ ++ l₂).length) (hj : j < (l₁ ++ l₂).length),
      isDeleteCall ((l₁ ++ l₂).get ⟨i, hi⟩) = true →
      isSendCall ((l₁ ++ l₂).get ⟨j, hj⟩) = true → i < j := by
  intro i j hi hj hdel hsend
  have hjge : l₁.length ≤ j := by
    by_contra hlt
    push_neg at hlt
    have heq : (l₁ ++ l₂).get ⟨j, hj⟩ = l₁.get ⟨j, hlt⟩ := by
      simp [List.getElem_append_left hlt]
    rw [heq, h₁ _ (List.get_mem l₁ j hlt)] at hsend
    exact Bool.false_ne_true hsend
  have hilt : i < l₁.length := by
    by_contra hge
    push_neg at hge
    have hsub : i - l₁.length < l₂.length := by
      have hlen := hi
      simp only [List.length_append] at hlen
      omega
    have heq : (l₁ ++ l₂).get ⟨i, hi⟩ = l₂.get ⟨i - l₁.length, hsub⟩ := by
      simp [List.getElem_append_right hge]
    rw [heq, h₂ _ (List.get_mem l₂ _ hsub)] at hdel
    exact Bool.false_ne_true hdel
  omega

theorem sendPayload_eq_none (e : Event) (h : isSendCall e = false) : sendPayload e = none := by
  cases e <;> simp_all [isSendCall, sendPayload]

/-- C9: the `qtocsv` command is not read-only — once the drain loop has
received and deleted everything, the staged messages are re-sent to the
very queue they were drained from: in the run's event trace every
delete call precedes every send call, every remote call targets the
drained queue, and the re-sent entries replay each drained message in
order with its body and id, carrying a freshly generated deduplication
id on ordered queues. -/
theorem c9_qtocsv_redrives_same_queue (qURL : String) (fifo : Bool)
    (batches : List (List Message)) (dErrs sErrs : Nat → Option String)
    (reads : Nat → Except String (List Nat))
    (_hne : ∀ b ∈ batches, b ≠ [])
    (hwf : ∀ b ∈ batches, ∀ m ∈ b, wellFormed fifo m) :
    ∃ evs fatal,
      toCSVRun qURL fifo batches dErrs reads sErrs = Except.ok (evs, fatal) ∧
      (∀ (i j : Nat) (hi : i < evs.length) (hj : j < evs.length),
        isDeleteCall (evs.get ⟨i, hi⟩) = true →
        isSendCall (evs.get ⟨j, hj⟩) = true → i < j) ∧
      (∀ e ∈ evs, ∀ q, eventQueue e = some q → q = qURL) ∧
      (sentEntries evs).map (fun e => e.messageBody) = batches.flatten.map Message.body ∧
      (sentEntries evs).map (fun e => e.id) = batches.flatten.map Message.messageId ∧
      (fifo = true →
        (sentEntries evs).map (fun e => e.messageDeduplicationId) =
          (List.range batches.flatten.length).map (fun i => some (uuidValue (reads i)))) := by
  obtain ⟨devs, es, hdrain, hes, hnosend, hqueue, hrun⟩ :=
    toCSVRun_ok qURL fifo batches dErrs reads sErrs hwf
  have hch : buildEntries fifo reads (chunks 10 batches.flatten).flatten = Except.ok es := by
    rw [chunks_flatten]; exact hes
  obtain ⟨h1, h2, h3, h4, h5⟩ :=
    sendChunks_ok qURL fifo (chunks 10 batches.flatten) reads sErrs es hch
  obtain ⟨hbody, hid, hdedup⟩ := buildEntries_ok_inv fifo batches.flatten reads es hes
  set calls := (sendMessageBatchRun qURL fifo reads sErrs batches.flatten 10).calls with hcalls
  have hsent : sentEntries (devs ++ calls.map (fun c => Event.sendCall c.queueUrl c.entries c.err)) = es := by
    rw [sentEntries, List.filterMap_append]
    have hnil : devs.filterMap sendPayload = [] :=
      List.filterMap_eq_nil_iff.mpr (fun e he => sendPayload_eq_none e (hnosend e he))
    rw [hnil, List.nil_append, List.filterMap_map]
    have hfm : ∀ cs : List SendBatchCall,
        List.filterMap (sendPayload ∘ fun c => Event.sendCall c.queueUrl c.entries c.err) cs =
          cs.map SendBatchCall.entries := by
      intro cs
      induction cs with
      | nil => rfl
      | cons c t ih => simp [sendPayload, Function.comp, ih, List.filterMap_cons]
    rw [hfm, hcalls, sendMessageBatchRun_eq]
    exact h3
  refine ⟨devs ++ calls.map (fun c => Event.sendCall c.queueUrl c.entries c.err), _, hrun,
    ?_, ?_, ?_, ?_, ?_⟩
  · apply delete_before_send_positions devs _ hnosend
    intro e he
    obtain ⟨c, -, hc⟩ := List.mem_map.mp he
    subst hc
    rfl
  · intro e he q hq
    rcases List.mem_append.mp he with h | h
    · exact hqueue e h q hq
    · obtain ⟨c, hcmem, hc⟩ := List.mem_map.mp h
      subst hc
      simp only [eventQueue, Option.some.injEq] at hq
      rw [← hq]
      rw [hcalls, sendMessageBatchRun_eq] at hcmem
      exact h5 c hcmem
  · rw [hsent]; exact hbody
  · rw [hsent]; exact hid
  · intro hf
    rw [hsent]
    exact hdedup hf

/-- C6: a failed `DeleteMessageBatch` call is logged (`Delete Error`)
and the function returns normally with exactly the one call issued (no
retry); the drain loop's behaviour — the batches received, the rows
printed, the messages staged — is identical whatever the delete
outcomes are, with exactly one delete call per received batch; and per
the transport contract a failed delete leaves its messages in the
queue. -/
theorem c6_delete_failure_logged_and_run_continues :
    (∀ (q : String) (ms : List Message) (e : String),
      deleteMessageBatch q ms (some e) =
        (⟨q, ms.map (fun m => (m.messageId, m.receiptHandle))⟩, ["Delete Error " ++ e]) ∧
      deleteMessageBatch q ms none =
        (⟨q, ms.map (fun m => (m.messageId, m.receiptHandle))⟩, [])) ∧
    (∀ (qURL : String) (fifo : Bool) (dErrs : Nat → Option String)
      (batches : List (List Message)), (∀ b ∈ batches, ∀ m ∈ b, wellFormed fifo m) →
      ∃ evs, drainPhase qURL fifo dErrs batches = Except.ok (evs, batches.flatten) ∧
        evs.countP (fun e => isDeleteCall e) = batches.length) ∧
    (∀ (qURL : String) (fifo : Bool) (batches : List (List Message))
      (d₁ d₂ : Nat → Option String) (evs₁ : List Event) (readd : List Message),
      drainPhase qURL fifo d₁ batches = Except.ok (evs₁, readd) →
      ∃ evs₂, drainPhase qURL fifo d₂ batches = Except.ok (evs₂, readd) ∧
        evs₁.map stripDeleteOutcome = evs₂.map stripDeleteOutcome) ∧
    (∀ (qstate batch : List Message) (e : String),
      queueAfterDelete qstate batch (some e) = qstate) := by
  refine ⟨fun q ms e => ⟨rfl, rfl⟩, ?_, ?_, fun qstate batch e => rfl⟩
  · intro qURL fifo dErrs batches hwf
    obtain ⟨evs, hevs, -, -, hcnt⟩ := drainPhase_ok qURL fifo batches dErrs hwf
    exact ⟨evs, hevs, hcnt⟩
  · intro qURL fifo batches d₁ d₂ evs₁ readd h
    exact drainPhase_independent qURL fifo batches d₁ d₂ evs₁ readd h

/-- C10: the error `newUUID` returns is discarded at both call sites
(`uuid, _ := newUUID()`): when the random source fails, `newUUID`
returns the error with an empty string, and the ordered-queue send
paths still submit the item, with deduplication id set to the empty
string, instead of failing the item or aborting. -/
theorem c10_uuid_error_discarded (m : Message) (e : String) (q : String)
    (h : wellFormed true m) :
    newUUID (Except.error e) = Except.error e ∧
    uuidValue (Except.error e) = "" ∧
    (∃ ent, buildEntry m true (Except.error e) = Except.ok ent ∧
      ent.messageDeduplicationId = some "") ∧
    (∃ inp, sendMessageInputOf q m true (Except.error e) = Except.ok inp ∧
      inp.messageDeduplicationId = some "") := by
  refine ⟨rfl, rfl, ?_, ?_⟩
  · obtain ⟨ent, hent, -, -, hf, -⟩ := buildEntry_ok m true (Except.error e) h
    exact ⟨ent, hent, by rw [(hf rfl).1]; rfl⟩
  · obtain ⟨inp, hinp, -, -, hf, -⟩ := sendMessageInputOf_ok q m true (Except.error e) h
    exact ⟨inp, hinp, by rw [(hf rfl).1]; rfl⟩

/-- C4 counterexample: distinctness from the original deduplication id
is not guaranteed.  `mClash` carries the deduplication id that the
all-zero random draw renders to; re-submitting it under that draw
produces an outbound deduplication id equal to the one the original
message carried. -/
theorem c4_counterexample :
    (buildEntry mClash true (Except.ok (List.replicate 16 0))).map
      (fun ent => ent.messageDeduplicationId) =
      Except.ok (some "00000000000040008000000000000000") ∧
    mClash.attributes "MessageDeduplicationId" = some "00000000000040008000000000000000" := by
  constructor <;> rfl

/-- C4 (amended): the outbound deduplication id of a re-submitted
ordered-queue message is the value produced by the fresh `newUUID`
call — the build never reads the original message's deduplication
attribute (changing it changes nothing) — and the group id is copied
unchanged; equality with the original id is, however, not checked, so
distinctness holds only when the original id differs from the freshly
rendered value.  The single-message `sendMessage` path behaves the same
way. -/
theorem c4_amended_fresh_dedup_group_copied (m : Message)
    (read : Except String (List Nat)) (q : String) (h : wellFormed true m) :
    ∃ ent, buildEntry m true read = Except.ok ent ∧
      ent.messageDeduplicationId = some (uuidValue read) ∧
      ent.messageGroupId = m.attributes "MessageGroupId" ∧
      (∀ v : Option String,
        buildEntry { m with attributes :=
          fun k => if k = "MessageDeduplicationId" then v else m.attributes k } true read =
          Except.ok ent) ∧
      (∃ inp, sendMessageInputOf q m true read = Except.ok inp ∧
        inp.messageDeduplicationId = some (uuidValue read) ∧
        inp.messageGroupId = m.attributes "MessageGroupId") := by
  obtain ⟨ent, hent, -, -, hf, -⟩ := buildEntry_ok m true read h
  obtain ⟨hded, hgrp⟩ := hf rfl
  refine ⟨ent, hent, hded, hgrp, ?_, ?_⟩
  · intro v
    rw [← hent]
    simp [buildEntry, getBatchRequestEntryAttributes]
  · obtain ⟨inp, hinp, -, -, hfi, -⟩ := sendMessageInputOf_ok q m true read h
    obtain ⟨hdi, hgi⟩ := hfi rfl
    exact ⟨inp, hinp, hdi, hgi⟩

theorem buildEntries_prefix (fifo : Bool) (reads : Nat → Except String (List Nat))
    (l₁ l₂ : List Message) (es : List SendMessageBatchRequestEntry)
    (h : buildEntries fifo reads (l₁ ++ l₂) = Except.ok es) :
    ∃ es₁ es₂, buildEntries fifo reads l₁ = Except.ok es₁ ∧
      buildEntries fifo (fun n => reads (n + l₁.length)) l₂ = Except.ok es₂ ∧
      es = es₁ ++ es₂ := by
  rw [buildEntries_append] at h
  rcases h1 : buildEntries fifo reads l₁ with e | es₁ <;> rw [h1] at h
  · simp [Bind.bind, Except.bind] at h
  · rcases h2 : buildEntries fifo (fun n => reads (n + l₁.length)) l₂ with e | es₂ <;>
      rw [h2] at h
    · simp [Bind.bind, Except.bind] at h
    · simp only [Bind.bind, Except.bind, Except.ok.injEq] at h
      exact ⟨es₁, es₂, rfl, rfl, h.symm⟩

theorem buildEntries_cons_error (fifo : Bool) (reads : Nat → Except String (List Nat))
    (m : Message) (rest : List Message) (e : String)
    (h : buildEntry m fifo (reads 0) = Except.error e) :
    buildEntries fifo reads (m :: rest) = Except.error e := by
  simp [buildEntries, h, Bind.bind, Except.bind]

theorem buildEntries_append_error (fifo : Bool) (reads : Nat → Except String (List Nat))
    (l₁ l₂ : List Message) (es₁ : List SendMessageBatchRequestEntry) (e : String)
    (h1 : buildEntries fifo reads l₁ = Except.ok es₁)
    (h2 : buildEntries fifo (fun n => reads (n + l₁.length)) l₂ = Except.error e) :
    buildEntries fifo reads (l₁ ++ l₂) = Except.error e := by
  rw [buildEntries_append, h1]
  simp [Bind.bind, Except.bind, h2]

theorem sendChunks_stops_at_bad (queue : String) (mbad : Message)
    (hstc : (mbad.attributes "SentTimestamp").isSome = true)
    (hmiss : mbad.attributes "MessageGroupId" = none) :
    ∀ (cs : List (List Message)) (reads : Nat → Except String (List Nat))
      (outcomes : Nat → Option String) (pre post : List Message)
      (es : List SendMessageBatchRequestEntry),
      cs.flatten = pre ++ mbad :: post →
      buildEntries true reads pre = Except.ok es →
      (∃ e, (sendChunks queue true reads outcomes cs).crash = some e) ∧
      (∀ call ∈ (sendChunks queue true reads outcomes cs).calls,
        ∀ ent ∈ call.entries, ent ∈ es) := by
  intro cs
  induction cs with
  | nil =>
    intro reads outcomes pre post es hflat hpre
    exact absurd hflat.symm (by simp)
  | cons c cs' ih =>
    intro reads outcomes pre post es hflat hpre
    rw [List.flatten_cons] at hflat
    rcases hc : buildEntries true reads c with e | esc
    · refine ⟨⟨e, by simp [sendChunks, hc]⟩, ?_⟩
      intro call hcall
      simp [sendChunks, hc] at hcall
    · have hclen : c.length ≤ pre.length := by
        by_contra hgt
        push_neg at hgt
        have hkey : c = pre ++ mbad :: post.take (c.length - pre.length - 1) := by
          have htake := congrArg (List.take c.length) hflat
          rw [List.take_left] at htake
          rw [List.take_append_eq_append_take,
            List.take_of_length_le (le_of_lt hgt),
            show c.length - pre.length = (c.length - pre.length - 1) + 1 by omega,
            List.take_succ_cons] at htake
          exact htake
        have : buildEntries true reads c = Except.error
            "runtime error: invalid memory address or nil pointer dereference: MessageGroupId" := by
          rw [hkey]
          exact buildEntries_append_error true reads pre _ es _ hpre
            (buildEntries_cons_error true _ mbad _ _
              (buildEntry_missing_group mbad _ hstc hmiss))
        rw [this] at hc
        exact Except.noConfusion hc
      have hcpre : c = pre.take c.length := by
        have htake := congrArg (List.take c.length) hflat
        rw [List.take_left, List.take_append_eq_append_take,
          Nat.sub_eq_zero_of_le hclen, List.take_zero, List.append_nil] at htake
        exact htake
      have hdrop : cs'.flatten = pre.drop c.length ++ mbad :: post := by
        have hd := congrArg (List.drop c.length) hflat
        rw [List.drop_left, List.drop_append_eq_append_drop,
          Nat.sub_eq_zero_of_le hclen, List.drop_zero] at hd
        exact hd
      obtain ⟨es₁, es₂, hes₁, hes₂, hsplit⟩ := by
        rw [show pre = pre.take c.length ++ pre.drop c.length from
          (List.take_append_drop c.length pre).symm] at hpre
        exact buildEntries_prefix true reads _ _ es hpre
      have hlen : (pre.take c.length).length = c.length := by
        rw [List.length_take]
        omega
      have hesc : esc = es₁ := by
        rw [← hcpre] at hes₁
        rw [hes₁] at hc
        exact ((Except.ok.injEq _ _).mp hc).symm
      rw [hlen] at hes₂
      obtain ⟨ihcrash, ihcalls⟩ := ih (fun n => reads (n + c.length)) (fun n => outcomes (n + 1))
        (pre.drop c.length) post es₂ hdrop hes₂
      constructor
      · obtain ⟨e, he⟩ := ihcrash
        exact ⟨e, by simp [sendChunks, hc, he]⟩
      · intro call hcall ent hent
        simp only [sendChunks, hc] at hcall
        rcases List.mem_cons.mp hcall with hh | hh
        · subst hh
          rw [hsplit]
          exact List.mem_append_left es₂ (hesc ▸ hent)
        · rw [hsplit]
          exact List.mem_append_right es₁ (ihcalls call hh ent hent)

theorem goIsSpace_space : goIsSpace ' ' = true := rfl

theorem fieldsAux_fields (cs : List Char) :
    ∀ (cur : List Char), (∀ c ∈ cur, goIsSpace c = false) →
    ∀ f ∈ fieldsAux cur cs, f ≠ [] ∧ ∀ c ∈ f, goIsSpace c = false := by
  induction cs with
  | nil =>
    intro cur hcur f hf
    simp only [fieldsAux] at hf
    split at hf
    · simp at hf
    · rcases List.mem_singleton.mp hf with rfl
      constructor
      · simp_all
      · intro c hc
        exact hcur c (List.mem_reverse.mp hc)
  | cons c rest ih =>
    intro cur hcur f hf
    simp only [fieldsAux] at hf
    split at hf
    · split at hf
      · exact ih [] (by simp) f hf
      · rcases List.mem_cons.mp hf with rfl | hf2
        · constructor
          · simp_all
          · intro c2 hc2
            exact hcur c2 (List.mem_reverse.mp hc2)
        · exact ih [] (by simp) f hf2
    · refine ih (c :: cur) ?_ f hf
      intro c2 hc2
      rcases List.mem_cons.mp hc2 with rfl | hc3
      · simp_all
      · exact hcur c2 hc3

theorem chain_of_no_space (l : List Char) (h : ∀ c ∈ l, goIsSpace c = false) :
    List.Chain' (fun a b => ¬(a = ' ' ∧ b = ' ')) l := by
  induction l with
  | nil => exact List.chain'_nil
  | cons a t ih =>
    rw [List.chain'_cons']
    refine ⟨?_, ih (fun c hc => h c (List.mem_cons_of_mem _ hc))⟩
    intro b _ hab
    have := h a (List.mem_cons_self a t)
    rw [hab.1] at this
    simp [goIsSpace_space] at this

theorem joinSp_head (g : List Char) (rest : List (List Char)) (hg : g ≠ []) :
    ∃ ch t, joinSp (g :: rest) = ch :: t ∧ ch ∈ g := by
  rcases g with _ | ⟨c, g'⟩
  · exact absurd rfl hg
  · cases rest with
    | nil => exact ⟨c, g', rfl, List.mem_cons_self c g'⟩
    | cons r rs => exact ⟨c, g' ++ ' ' :: joinSp (r :: rs), rfl, List.mem_cons_self c g'⟩

theorem joinSp_chain (fs : List (List Char))
    (h : ∀ f ∈ fs, f ≠ [] ∧ ∀ c ∈ f, goIsSpace c = false) :
    List.Chain' (fun a b => ¬(a = ' ' ∧ b = ' ')) (joinSp fs) ∧
    (∀ c ∈ joinSp fs, goIsSpace c = true → c = ' ') := by
  induction fs with
  | nil => exact ⟨List.chain'_nil, by simp [joinSp]⟩
  | cons f fs' ih =>
    cases fs' with
    | nil =>
      obtain ⟨-, hns⟩ := h f (List.mem_cons_self f [])
      refine ⟨chain_of_no_space f hns, ?_⟩
      intro c hc hsp
      rw [hns c hc] at hsp
      exact absurd hsp (by simp)
    | cons g rest =>
      obtain ⟨hchain, hmem⟩ := ih (fun f2 hf2 => h f2 (List.mem_cons_of_mem _ hf2))
      obtain ⟨hfne, hfns⟩ := h f (List.mem_cons_self f _)
      obtain ⟨hgne, hgns⟩ := (h g (List.mem_cons_of_mem _ (List.mem_cons_self g rest)))
      show List.Chain' _ (f ++ ' ' :: joinSp (g :: rest)) ∧ _
      obtain ⟨ch, t, hj, hch⟩ := joinSp_head g rest hgne
      constructor
      · rw [List.chain'_append]
        refine ⟨chain_of_no_space f hfns, ?_, ?_⟩
        · rw [List.chain'_cons']
          refine ⟨?_, hchain⟩
          intro b hb hab
          rw [hj] at hb
          simp only [List.head?_cons, Option.mem_def, Option.some.injEq] at hb
          subst hb
          have := hgns ch hch
          rw [hab.2, goIsSpace_space] at this
          exact Bool.true_eq_false.mp this
        · intro x hx y hy hxy
          have hxmem : x ∈ f := List.mem_of_mem_getLast? hx
          have := hfns x hxmem
          rw [hxy.1, goIsSpace_space] at this
          exact Bool.true_eq_false.mp this
      · intro c hc hsp
        rcases List.mem_append.mp hc with hcf | hctail
        · rw [hfns c hcf] at hsp
          exact absurd hsp (by simp)
        · rcases List.mem_cons.mp hctail with rfl | hcj
          · rfl
          · exact hmem c hcj hsp

theorem escAux_chain (l : List Char) :
    List.Chain' (fun a b => b = '\"' → a = '\\')
      (l.flatMap (fun c => if c = '\"' then ['\\', '\"'] else [c])) ∧
    (l.flatMap (fun c => if c = '\"' then ['\\', '\"'] else [c])).head? ≠ some '\"' := by
  induction l with
  | nil => exact ⟨List.chain'_nil, by simp⟩
  | cons c t ih =>
    obtain ⟨ihc, ihh⟩ := ih
    by_cases hc : c = '\"'
    · subst hc
      simp only [List.flatMap_cons, if_pos rfl, if_true]
      constructor
      · rw [List.cons_append, List.cons_append, List.nil_append, List.chain'_cons']
        refine ⟨fun b hb hbq => rfl, ?_⟩
        rw [List.chain'_cons']
        refine ⟨?_, ihc⟩
        intro b hb hbq
        rw [Option.mem_def, hbq] at hb
        exact absurd hb ihh
      · simp
    · simp only [List.flatMap_cons, if_neg hc]
      constructor
      · rw [List.singleton_append, List.chain'_cons']
        refine ⟨?_, ihc⟩
        intro b hb hbq
        rw [Option.mem_def, hbq] at hb
        exact absurd hb ihh
      · simp [hc]
  

/-- C1 counterexample: an ordered-queue message missing its group id is
not failed as a single item.  With `mBad` (no group id) followed by the
fully-attributed `mGood` in one batch, `sendMessageBatch` issues no
send call at all — `mGood`'s transfer does not continue — and the run
dies with the nil-dereference panic instead of reporting an item
error. -/
theorem c1_counterexample :
    (sendMessageBatchRun "queue" true (fun _ => Except.error "rng")
      (fun _ => none) [mBad, mGood] 10).calls = [] ∧
    (sendMessageBatchRun "queue" true (fun _ => Except.error "rng")
      (fun _ => none) [mBad, mGood] 10).crash =
      some "runtime error: invalid memory address or nil pointer dereference: MessageGroupId" := by
  constructor <;>
    simp [sendMessageBatchRun_eq, chunks, sendChunks, buildEntries, buildEntry, mBad, mGood,
      deref, getBatchRequestEntryAttributes, uuidValue, newUUID, Bind.bind, Except.bind]

/-- C1 (amended): a received ordered-queue message whose attribute map
lacks the group id makes the outbound-payload construction dereference
a nil pointer: the run panics and aborts at that item.  The item is
indeed not submitted partially populated, but no per-item error is
produced and the remaining transfers do not continue — every entry that
was sent before the panic comes from the messages preceding the
malformed one, and nothing at or after it is ever submitted. -/
theorem c1_amended_missing_group_panics_run (q : String) (pre post : List Message)
    (mbad : Message) (reads : Nat → Except String (List Nat))
    (outcomes : Nat → Option String)
    (hwfpre : ∀ m ∈ pre, wellFormed true m)
    (hstc : (mbad.attributes "SentTimestamp").isSome = true)
    (hmiss : mbad.attributes "MessageGroupId" = none) :
    (∃ e, (sendMessageBatchRun q true reads outcomes (pre ++ mbad :: post) 10).crash = some e) ∧
    (∀ call ∈ (sendMessageBatchRun q true reads outcomes (pre ++ mbad :: post) 10).calls,
      ∀ ent ∈ call.entries, ent.id ∈ pre.map Message.messageId) := by
  obtain ⟨es, hes⟩ := buildEntries_ok_of_wf true pre reads hwfpre
  obtain ⟨hcrash, hcalls⟩ := sendChunks_stops_at_bad q mbad hstc hmiss
    (chunks 10 (pre ++ mbad :: post)) reads outcomes pre post es
    (chunks_flatten 10 (pre ++ mbad :: post)) hes
  rw [sendMessageBatchRun_eq]
  refine ⟨hcrash, ?_⟩
  intro call hcall ent hent
  obtain ⟨-, hid, -⟩ := buildEntries_ok_inv true pre reads es hes
  have hmem : ent.id ∈ es.map (fun e => e.id) :=
    List.mem_map.mpr ⟨ent, hcalls call hcall ent hent, rfl⟩
  rw [hid] at hmem
  exact hmem

/-- C3 counterexample: not every rendered row quotes the body.  On an
ordered queue, `formatCSV` prints the five columns with no quoting at
all: the row for `mGood` contains no double quote anywhere. -/
theorem c3_counterexample :
    formatCSV mGood true = Except.ok "hello,g1,d1,7,t2" ∧
    ("hello,g1,d1,7,t2".data.contains '\"') = false := by
  constructor <;> rfl

/-- C3 (amended): only the standard-queue branch of sqscli.go's
`formatCSV` writes the body quoted: its row is the
whitespace-collapsed, quote-escaped body wrapped in double quotes next
to the quoted timestamp — the collapsed body never holds two adjacent
spaces nor any non-space whitespace, and in the escaped body every
double quote is preceded by a backslash.  Draining a standard queue
holding ("hello world", t1) yields header `Body,Sent` and row
`"hello world","t1"`.  The ordered-queue branch is unquoted
(counterexample), and the part_001 variant prints the body verbatim. -/
theorem c3_amended_standard_rows_quoted :
    (∀ (m : Message) (st : String), m.attributes "SentTimestamp" = some st →
      formatCSV m false = Except.ok
        ("\"" ++ escapeQuotes (collapseSpaces m.body) ++ "\",\"" ++ st ++ "\"")) ∧
    (∀ s : String, List.Chain' (fun a b => ¬(a = ' ' ∧ b = ' ')) (collapseSpaces s).data ∧
      ∀ c ∈ (collapseSpaces s).data, goIsSpace c = true → c = ' ') ∧
    (∀ s : String, List.Chain' (fun a b => b = '\"' → a = '\\') (escapeQuotes s).data) ∧
    insertCSVHead false = "Body,Sent" ∧
    formatCSV mHello false = Except.ok "\"hello world\",\"t1\"" ∧
    formatCSVPlain mHello false = Except.ok "hello world,t1" := by
  refine ⟨?_, ?_, ?_, rfl, rfl, rfl⟩
  · intro m st hst
    simp [formatCSV, deref, hst, Bind.bind, Except.bind]
  · intro s
    exact joinSp_chain (fieldsAux [] s.data) (fieldsAux_fields s.data [] (by simp))
  · intro s
    exact (escAux_chain s.data).1

theorem hexDigit_isHex (n : Nat) (h : n < 16) :
    ("0123456789abcdef".data).contains (hexDigit n) = true := by
  interval_cases n <;> rfl

/-- C8: on a successful full 16-byte read, `newUUID` returns the
32-character lowercase-hex rendering of the masked 128-bit value (the
8-4-4-4-12 grouping concatenated without hyphens): every character is a
lowercase hex digit, the version nibble (high nibble of byte 6, output
position 12) is `4`, the variant nibble (output position 16) is
`8 + bits 4..5 of byte 8` and hence one of `8/9/a/b` (top two bits
forced to binary 10), and every other nibble — including the low nibble
of byte 6 and the low nibble of byte 8 — comes straight from the random
bytes. -/
theorem c8_newUUID_format (bytes : List Nat) (hlen : bytes.length = 16)
    (hb : ∀ b ∈ bytes, b < 256) :
    ∃ s, newUUID (Except.ok bytes) = Except.ok s ∧
      s.length = 32 ∧
      (∀ c ∈ s.data, ("0123456789abcdef".data).contains c = true) ∧
      s.data[12]? = some '4' ∧
      s.data[16]? = some (hexDigit (8 + bytes.getD 8 0 % 64 / 16)) ∧
      (s.data[16]? = some '8' ∨ s.data[16]? = some '9' ∨
        s.data[16]? = some 'a' ∨ s.data[16]? = some 'b') ∧
      s.data[13]? = some (hexDigit (bytes.getD 6 0 % 16)) ∧
      s.data[17]? = some (hexDigit (bytes.getD 8 0 % 16)) ∧
      (∀ i, i < 16 → i ≠ 6 → i ≠ 8 →
        s.data[2 * i]? = some (hexDigit (bytes.getD i 0 / 16)) ∧
        s.data[2 * i + 1]? = some (hexDigit (bytes.getD i 0 % 16))) := by
  match bytes, hlen, hb with
  | [b0, b1, b2, b3, b4, b5, b6, b7, b8, b9, b10, b11, b12, b13, b14, b15], _, hb =>
    have h0 : b0 < 256 := hb _ (by simp)
    have h1 : b1 < 256 := hb _ (by simp)
    have h2 : b2 < 256 := hb _ (by simp)
    have h3 : b3 < 256 := hb _ (by simp)
    have h4 : b4 < 256 := hb _ (by simp)
    have h5 : b5 < 256 := hb _ (by simp)
    have h6 : b6 < 256 := hb _ (by simp)
    have h7 : b7 < 256 := hb _ (by simp)
    have h8 : b8 < 256 := hb _ (by simp)
    have h9 : b9 < 256 := hb _ (by simp)
    have h10 : b10 < 256 := hb _ (by simp)
    have h11 : b11 < 256 := hb _ (by simp)
    have h12 : b12 < 256 := hb _ (by simp)
    have h13 : b13 < 256 := hb _ (by simp)
    have h14 : b14 < 256 := hb _ (by simp)
    have h15 : b15 < 256 := hb _ (by simp)
    refine ⟨_, rfl, rfl, ?_, ?_, ?_, ?_, ?_, ?_, ?_⟩
    · intro c hc
      have hs : (String.mk ((uuidMask [b0, b1, b2, b3, b4, b5, b6, b7, b8, b9, b10, b11, b12,
          b13, b14, b15]).map hexByte).flatten).data =
          [hexDigit (b0 / 16), hexDigit (b0 % 16), hexDigit (b1 / 16), hexDigit (b1 % 16),
           hexDigit (b2 / 16), hexDigit (b2 % 16), hexDigit (b3 / 16), hexDigit (b3 % 16),
           hexDigit (b4 / 16), hexDigit (b4 % 16), hexDigit (b5 / 16), hexDigit (b5 % 16),
           hexDigit ((b6 % 16 + 64) / 16), hexDigit ((b6 % 16 + 64) % 16),
           hexDigit (b7 / 16), hexDigit (b7 % 16),
           hexDigit ((b8 % 64 + 128) / 16), hexDigit ((b8 % 64 + 128) % 16),
           hexDigit (b9 / 16), hexDigit (b9 % 16), hexDigit (b10 / 16), hexDigit (b10 % 16),
           hexDigit (b11 / 16), hexDigit (b11 % 16), hexDigit (b12 / 16), hexDigit (b12 % 16),
           hexDigit (b13 / 16), hexDigit (b13 % 16), hexDigit (b14 / 16), hexDigit (b14 % 16),
           hexDigit (b15 / 16), hexDigit (b15 % 16)] := rfl
      rw [hs] at hc
      fin_cases hc <;> apply hexDigit_isHex <;> omega
    · show some (hexDigit ((b6 % 16 + 64) / 16)) = some '4'
      have : (b6 % 16 + 64) / 16 = 4 := by omega
      rw [this]
      rfl
    · show some (hexDigit ((b8 % 64 + 128) / 16)) = some (hexDigit (8 + b8 % 64 / 16))
      have : (b8 % 64 + 128) / 16 = 8 + b8 % 64 / 16 := by omega
      rw [this]
    · show some (hexDigit ((b8 % 64 + 128) / 16)) = some '8' ∨
        some (hexDigit ((b8 % 64 + 128) / 16)) = some '9' ∨
        some (hexDigit ((b8 % 64 + 128) / 16)) = some 'a' ∨
        some (hexDigit ((b8 % 64 + 128) / 16)) = some 'b'
      have hv : (b8 % 64 + 128) / 16 = 8 + b8 % 64 / 16 := by omega
      have hlt : b8 % 64 / 16 < 4 := by omega
      rw [hv]
      interval_cases h : (b8 % 64 / 16)
      · exact Or.inl rfl
      · exact Or.inr (Or.inl rfl)
      · exact Or.inr (Or.inr (Or.inl rfl))
      · exact Or.inr (Or.inr (Or.inr rfl))
    · show some (hexDigit ((b6 % 16 + 64) % 16)) = some (hexDigit (b6 % 16))
      have : (b6 % 16 + 64) % 16 = b6 % 16 := by omega
      rw [this]
    · show some (hexDigit ((b8 % 64 + 128) % 16)) = some (hexDigit (b8 % 16))
      have : (b8 % 64 + 128) % 16 = b8 % 16 := by omega
      rw [this]
    · intro i hi hne6 hne8
      interval_cases i <;> first
        | exact absurd rfl (by assumption)
        | exact ⟨rfl, rfl⟩

/-! Witnesses: each theorem with hypotheses, applied at a concrete
input. -/

/-- Witness for C1 (amended): one good message staged before the
malformed one; the run crashes and only the good message's id could
ever have been submitted. -/
theorem c1_witness :
    (∃ e, (sendMessageBatchRun "queue" true (fun _ => Except.error "rng")
      (fun _ => none) ([mGood] ++ mBad :: []) 10).crash = some e) ∧
    (∀ call ∈ (sendMessageBatchRun "queue" true (fun _ => Except.error "rng")
      (fun _ => none) ([mGood] ++ mBad :: []) 10).calls,
      ∀ ent ∈ call.entries, ent.id ∈ [mGood].map Message.messageId) :=
  c1_amended_missing_group_panics_run "queue" [mGood] [] mBad
    (fun _ => Except.error "rng") (fun _ => none) (by decide) (by decide) (by decide)

/-- Witness for C3 (amended): the standard branch at the concrete
hello-world message. -/
theorem c3_witness :
    formatCSV mHello false = Except.ok
      ("\"" ++ escapeQuotes (collapseSpaces mHello.body) ++ "\",\"" ++ "t1" ++ "\"") :=
  c3_amended_standard_rows_quoted.1 mHello "t1" rfl

/-- Witness for C4 (amended), at `mGood` under a failing random read. -/
theorem c4_witness :
    ∃ ent, buildEntry mGood true (Except.error "rng") = Except.ok ent ∧
      ent.messageDeduplicationId = some (uuidValue (Except.error "rng")) ∧
      ent.messageGroupId = mGood.attributes "MessageGroupId" ∧
      (∀ v : Option String,
        buildEntry { mGood with attributes :=
          fun k => if k = "MessageDeduplicationId" then v else mGood.attributes k } true
          (Except.error "rng") = Except.ok ent) ∧
      (∃ inp, sendMessageInputOf "q" mGood true (Except.error "rng") = Except.ok inp ∧
        inp.messageDeduplicationId = some (uuidValue (Except.error "rng")) ∧
        inp.messageGroupId = mGood.attributes "MessageGroupId") :=
  c4_amended_fresh_dedup_group_copied mGood (Except.error "rng") "q" (by decide)

/-- Witness for C5 at a one-message FIFO redrive. -/
theorem c5_witness :
    (sendMessageBatchRun "q" true (fun _ => Except.error "rng")
      (fun _ => none) [mGood] 10).crash = none ∧
    ((sendMessageBatchRun "q" true (fun _ => Except.error "rng")
      (fun _ => none) [mGood] 10).calls.map
      SendBatchCall.entries).flatten.map (fun e => e.messageBody) =
      [mGood].map Message.body ∧
    ((sendMessageBatchRun "q" true (fun _ => Except.error "rng")
      (fun _ => none) [mGood] 10).calls.map
      SendBatchCall.entries).flatten.length = [mGood].length ∧
    ∀ (q2 : String) (m2 : Message) (f2 : Bool) (r2 : Except String (List Nat))
      (inp : SendMessageInput),
      sendMessageInputOf q2 m2 f2 r2 = Except.ok inp → inp.messageBody = m2.body :=
  c5_resend_preserves_bodies "q" true (fun _ => Except.error "rng") (fun _ => none) [mGood]
    ((buildEntries true (fun _ => Except.error "rng") [mGood]).toOption.getD []) (by rfl)

/-- Witness for C6: a concrete failed delete is logged and returned
from, the drain of one batch issues exactly one delete call, and the
queue state is untouched by the failure. -/
theorem c6_witness :
    (deleteMessageBatch "q" [mGood] (some "boom") =
      (⟨"q", [mGood].map (fun m => (m.messageId, m.receiptHandle))⟩,
       ["Delete Error " ++ "boom"])) ∧
    (∃ evs, drainPhase "q" false (fun _ => some "boom") [[mHello]] =
      Except.ok (evs, [[mHello]].flatten) ∧
      evs.countP (fun e => isDeleteCall e) = [[mHello]].length) ∧
    queueAfterDelete [mGood] [mGood] (some "boom") = [mGood] :=
  ⟨(c6_delete_failure_logged_and_run_continues.1 "q" [mGood] "boom").1,
   c6_delete_failure_logged_and_run_continues.2.1 "q" false (fun _ => some "boom")
     [[mHello]] (by decide),
   c6_delete_failure_logged_and_run_continues.2.2.2 [mGood] [mGood] "boom"⟩

/-- Witness for C7: one standard-queue batch whose single re-send chunk
fails; the run reports fatal. -/
theorem c7_witness :
    ∃ evs fatal,
      toCSVRun "q" false [[mHello]] (fun _ => none) (fun _ => Except.error "rng")
        (fun _ => some "send down") = Except.ok (evs, fatal) ∧
      (sendMessageBatchRun "q" false (fun _ => Except.error "rng")
        (fun _ => some "send down") [[mHello]].flatten 10).calls.length =
        ([[mHello]].flatten.length + 9) / 10 ∧
      (sendMessageBatchRun "q" false (fun _ => Except.error "rng")
        (fun _ => some "send down") [[mHello]].flatten 10).calls.map
        SendBatchCall.err =
        (List.range (([[mHello]].flatten.length + 9) / 10)).map (fun _ => some "send down") ∧
      collectedErrors (sendMessageBatchRun "q" false (fun _ => Except.error "rng")
        (fun _ => some "send down") [[mHello]].flatten 10) =
        ((List.range (([[mHello]].flatten.length + 9) / 10)).map
          (fun _ => some "send down")).filterMap id ∧
      (fatal = true ↔
        ∃ i < ([[mHello]].flatten.length + 9) / 10, (fun _ => some "send down") i ≠ none) :=
  c7_failed_chunk_does_not_block_rest "q" false [[mHello]] (fun _ => none)
    (fun _ => some "send down") (fun _ => Except.error "rng") (by decide)

/-- Witness for C8: the uuid rendered from the byte sequence
`0,1,…,15`. -/
theorem c8_witness :
    ∃ s, newUUID (Except.ok (List.range 16)) = Except.ok s ∧
      s.length = 32 ∧
      (∀ c ∈ s.data, ("0123456789abcdef".data).contains c = true) ∧
      s.data[12]? = some '4' ∧
      s.data[16]? = some (hexDigit (8 + (List.range 16).getD 8 0 % 64 / 16)) ∧
      (s.data[16]? = some '8' ∨ s.data[16]? = some '9' ∨
        s.data[16]? = some 'a' ∨ s.data[16]? = some 'b') ∧
      s.data[13]? = some (hexDigit ((List.range 16).getD 6 0 % 16)) ∧
      s.data[17]? = some (hexDigit ((List.range 16).getD 8 0 % 16)) ∧
      (∀ i, i < 16 → i ≠ 6 → i ≠ 8 →
        s.data[2 * i]? = some (hexDigit ((List.range 16).getD i 0 / 16)) ∧
        s.data[2 * i + 1]? = some (hexDigit ((List.range 16).getD i 0 % 16))) :=
  c8_newUUID_format (List.range 16) (by decide) (by decide)

/-- Witness for C9: a one-batch FIFO drain under a failing random
source. -/
theorem c9_witness :
    ∃ evs fatal,
      toCSVRun "q" true [[mGood]] (fun _ => none) (fun _ => Except.error "rng")
        (fun _ => none) = Except.ok (evs, fatal) ∧
      (∀ (i j : Nat) (hi : i < evs.length) (hj : j < evs.length),
        isDeleteCall (evs.get ⟨i, hi⟩) = true →
        isSendCall (evs.get ⟨j, hj⟩) = true → i < j) ∧
      (∀ e ∈ evs, ∀ q, eventQueue e = some q → q = "q") ∧
      (sentEntries evs).map (fun e => e.messageBody) = [[mGood]].flatten.map Message.body ∧
      (sentEntries evs).map (fun e => e.id) = [[mGood]].flatten.map Message.messageId ∧
      (true = true →
        (sentEntries evs).map (fun e => e.messageDeduplicationId) =
          (List.range [[mGood]].flatten.length).map
            (fun _ => some (uuidValue (Except.error "rng")))) :=
  c9_qtocsv_redrives_same_queue "q" true [[mGood]] (fun _ => none) (fun _ => none)
    (fun _ => Except.error "rng") (by simp) (by decide)

/-- Witness for C10 at `mGood`. -/
theorem c10_witness :
    newUUID (Except.error "rng down") = Except.error "rng down" ∧
    uuidValue (Except.error "rng down") = "" ∧
    (∃ ent, buildEntry mGood true (Except.error "rng down") = Except.ok ent ∧
      ent.messageDeduplicationId = some "") ∧
    (∃ inp, sendMessageInputOf "q" mGood true (Except.error "rng down") = Except.ok inp ∧
      inp.messageDeduplicationId = some "") :=
  c10_uuid_error_discarded mGood "rng down" "q" (by decide)

end SqsCli
